import Mathlib

/-!
Verification of the Nexzy Discovery Engine against its specification.

The repository snapshot contains the documentation of the backend
(src/unnamed/part_011, src/unnamed/part_013, src/docs/...), the SQL schema
and the React frontend, but not the Python sources of the engine itself
(nexzy-backend/scrapers/discovery_engine.py and nexzy-backend/api/main.py
are only described by those documents).  The engine is therefore modelled
from the spec, with the concrete limits and formulas taken from the
repository documents that record them:

* scoring: 40% domain + 30% emails + 30% keywords, floor 0.3
  (src/unnamed/part_013 line 137-139, src/nexzy-backend/SETUP_COMPLETE.md
  line 123, spec section 4.3);
* request limits: keywords max 5 per request, each 3-100 chars, URLs max 20
  (src/docs/guides/AUTO_DISCOVERY_GUIDE.md lines 170-182);
* SSRF rules: loopback, link-local and credentialed URLs are rejected
  (src/docs/IMPROVEMENTS_SUMMARY.md lines 82-104, spec sections 4.1 and 7);
* search-then-fallback discovery (src/docs/features/PASTEBIN_SEARCH_FEATURE.md).

The frontend scan form (src/nexzy-frontend/src/components/ScanModal.jsx) is
present in the snapshot and is embedded directly from its source.

Scores are exact rationals.  Because rational normalization does not reduce
in the kernel, the pipeline stores the integer scoring counts and compares
scores by cross multiplication on naturals; the rational-valued score is a
derived view proved equal to the weighted sum of the spec.
-/

namespace Nexzy

/-! ## String utilities (models of the Python string operations) -/

/-- Case-sensitive substring test on character lists. -/
def subList (pat : List Char) : List Char → Bool
  | [] => pat.isEmpty
  | c :: t => pat.isPrefixOf (c :: t) || subList pat t

/-- Whether `pat` occurs as a contiguous substring of `hay`
(model of the Python `in` operator on strings). -/
def containsSub (hay pat : String) : Bool :=
  subList pat.data hay.data

/-- ASCII lower-casing of a single character. -/
def lowerChar (c : Char) : Char :=
  if c.toNat ≥ 65 ∧ c.toNat ≤ 90 then Char.ofNat (c.toNat + 32) else c

/-- ASCII lower-casing of a string (model of Python `str.lower`). -/
def lowerStr (s : String) : String :=
  ⟨s.data.map lowerChar⟩

/-- Case-insensitive substring test
(model of `keyword.lower() in text.lower()`). -/
def containsCI (hay pat : String) : Bool :=
  containsSub (lowerStr hay) (lowerStr pat)

/-- Whether a string consists of whitespace only (a JavaScript string is
falsy after `.trim()` exactly when it has no non-whitespace character). -/
def isBlank (u : String) : Bool :=
  u.data.all Char.isWhitespace

/-! ## Email extraction

Modelled from the spec: the Content Analyzer of
`scrapers/discovery_engine.py` is not in the snapshot; the spec (section
4.3) prescribes an RFC-5322-lite pattern.  A token of local-part characters,
one `@`, and a domain containing a dot is extracted as an email. -/

/-- Characters admitted in the local part of an extracted email. -/
def emailLocalChar (c : Char) : Bool :=
  c.isAlphanum || c = '.' || c = '_' || c = '%' || c = '+' || c = '-'

/-- Characters admitted in the domain part of an extracted email. -/
def emailDomainChar (c : Char) : Bool :=
  c.isAlphanum || c = '.' || c = '-'

/-- Characters that may belong to an email token at all. -/
def emailTokenChar (c : Char) : Bool :=
  emailLocalChar c || c = '@'

/-- Splits a character list into maximal runs of characters satisfying `p`. -/
def tokensAux (p : Char → Bool) : List Char → List Char → List (List Char)
  | [], acc => if acc.isEmpty then [] else [acc.reverse]
  | c :: t, acc =>
    if p c then tokensAux p t (c :: acc)
    else if acc.isEmpty then tokensAux p t []
    else acc.reverse :: tokensAux p t []

/-- The maximal email-shaped tokens of a text. -/
def emailTokens (s : String) : List (List Char) :=
  tokensAux emailTokenChar s.data []

/-- Splits a character list at the first occurrence of `sep`. -/
def splitAtChar (sep : Char) : List Char → Option (List Char × List Char)
  | [] => none
  | c :: t =>
    if c = sep then some ([], t)
    else (splitAtChar sep t).map fun q => (c :: q.1, q.2)

/-- Whether a token is an email under the RFC-5322-lite pattern. -/
def isEmailTok (tok : List Char) : Bool :=
  match splitAtChar '@' tok with
  | none => false
  | some (loc, dom) =>
    !loc.isEmpty && !dom.isEmpty && loc.all emailLocalChar &&
    dom.all emailDomainChar && dom.contains '.'

/-- All distinct emails extracted from a text. -/
def extractEmails (s : String) : List String :=
  ((emailTokens s).filter isEmailTok).map (⟨·⟩) |>.dedup

/-- The domain part of an extracted email. -/
def emailDomain (e : String) : String :=
  match splitAtChar '@' e.data with
  | some (_, dom) => ⟨dom⟩
  | none => ""

/-! ## Credential signal patterns

Modelled from the spec: the pattern table of the Content Analyzer is not in
the snapshot; the spec (sections 4.3 and design notes) prescribes a
declarative list of credential-style key patterns matched
case-insensitively. -/

/-- The credential-style patterns of the signal table. -/
def credentialPatterns : List String :=
  ["password", "pwd", "token", "api_key", "secret"]

/-- The credential signals a text matches. -/
def credentialSignals (s : String) : List String :=
  credentialPatterns.filter (containsCI s ·)

/-! ## Data model (spec section 3) -/

/-- A DiscoveryJob: the input of one engine run (spec section 3).
The target domain lives in the engine configuration (`TARGET_DOMAIN` in
the backend README configuration table), not in the job. -/
structure DiscoveryJob where
  keywords : List String
  seedURLs : List String
  enableClearnet : Bool
  enableDarknet : Bool
  crawlAuthors : Bool
deriving DecidableEq, Repr

/-- How a candidate URL was discovered (spec section 3). -/
inductive DiscoveredVia
  | keywordSearch
  | archiveFallback
  | authorExpansion
  | seedInput
deriving DecidableEq, Repr

/-- A URL discovered by an adapter before fetching (spec section 3). -/
structure Candidate where
  url : String
  adapterID : String
  via : DiscoveredVia
deriving DecidableEq, Repr

/-- The result of fetching a candidate URL (spec section 3).  The
timestamp field of the spec is outside the shallow embedding and the
raw-text truncation cap is not exercised by any claim. -/
structure FetchedDocument where
  url : String
  rawText : String
  author : String
  httpStatus : Nat
deriving DecidableEq, Repr

/-- A fetched document plus analysis (spec section 3).  The scoring counts
are stored exactly; `relevanceScore` is the derived rational view. -/
structure AnalyzedResult where
  url : String
  author : String
  adapterID : String
  emails : List String
  targetEmails : List String
  hasCredentials : Bool
  detectedSignals : List String
  domainHit : Bool
  keywordHits : Nat
  keywordTotal : Nat
deriving DecidableEq, Repr

/-- The error taxonomy of spec section 7 for per-URL and per-adapter
failures. -/
inductive FetchErrorKind
  | Timeout
  | HTTPError (status : Nat)
  | MalformedResponse
  | SSRFRejected
  | RateLimited
deriving DecidableEq, Repr

/-- A recorded per-URL adapter error (spec sections 4.6 and 7). -/
structure AdapterError where
  kind : FetchErrorKind
  url : String
  adapterID : String
deriving DecidableEq, Repr

/-- The job-level error taxonomy of spec section 7. -/
inductive JobError
  | NoEnabledSources
  | InvalidJobInput
deriving DecidableEq, Repr

/-- The output of one orchestrator run (spec section 3).  The timestamped
log of the spec is outside the shallow embedding. -/
structure RunReport where
  results : List AnalyzedResult
  totalCandidatesSeen : Nat
  totalFetched : Nat
  totalAboveThreshold : Nat
  errors : List AdapterError
deriving DecidableEq, Repr

/-- Engine configuration (spec section 6 and the configuration table of the
backend README).  The relevance floor is kept as an exact fraction
`minRelNum / minRelDen` so that the pipeline can compare scores without
rational normalization. -/
structure EngineConfig where
  targetDomain : String
  minRelNum : Nat
  minRelDen : Nat
  resultCap : Nat
  maxRetries : Nat
deriving DecidableEq, Repr

/-- The relevance floor of a configuration as a rational. -/
def EngineConfig.floorQ (cfg : EngineConfig) : ℚ :=
  (cfg.minRelNum : ℚ) / cfg.minRelDen

/-! ## Content Analyzer (spec section 4.3)

Modelled from the spec: `_calculate_relevance_score` and `analyze_paste` of
`scrapers/discovery_engine.py` are not in the snapshot; the weights
40% domain + 30% emails + 30% keywords are recorded in
src/unnamed/part_013 line 137 and SETUP_COMPLETE.md line 123, and the
component definitions in spec section 4.3. -/

/-- Analyzes one fetched document against a job (spec section 4.3). -/
def analyze (cfg : EngineConfig) (job : DiscoveryJob) (adapterID : String)
    (doc : FetchedDocument) : AnalyzedResult :=
  let emails := extractEmails doc.rawText
  { url := doc.url
    author := doc.author
    adapterID := adapterID
    emails := emails
    targetEmails := emails.filter (fun e => emailDomain e = cfg.targetDomain)
    hasCredentials := !(credentialSignals doc.rawText).isEmpty
    detectedSignals := credentialSignals doc.rawText
    domainHit := containsSub doc.rawText cfg.targetDomain
    keywordHits := (job.keywords.filter (containsCI doc.rawText ·)).length
    keywordTotal := job.keywords.length }

/-- The effective keyword denominator: a job with no keywords contributes a
zero keyword component rather than a division by zero. -/
def nEff (r : AnalyzedResult) : Nat :=
  max r.keywordTotal 1

/-- The integer numerator of the relevance score over denominator
`10 * nEff r`. -/
def scoreNum (r : AnalyzedResult) : Nat :=
  4 * (if r.domainHit then 1 else 0) * nEff r
    + nEff r * min 3 r.targetEmails.length
    + 3 * r.keywordHits

/-- The integer denominator of the relevance score. -/
def scoreDen (r : AnalyzedResult) : Nat :=
  10 * nEff r

/-- The relevance score of an analyzed result, as a rational in [0, 1]. -/
def relevanceScore (r : AnalyzedResult) : ℚ :=
  (scoreNum r : ℚ) / (scoreDen r)

/-- The domain component of the score: 1 if the target domain appears
literally in the text, else 0 (spec section 4.3). -/
def domainMatch (r : AnalyzedResult) : ℚ :=
  if r.domainHit then 1 else 0

/-- The email component of the score: `min 1 (targetEmailCount / 3)`
(spec section 4.3). -/
def emailMatch (r : AnalyzedResult) : ℚ :=
  min 1 ((r.targetEmails.length : ℚ) / 3)

/-- The keyword component of the score: the fraction of the keywords of the
job found in the text (spec section 4.3). -/
def keywordMatch (r : AnalyzedResult) : ℚ :=
  if r.keywordTotal = 0 then 0 else (r.keywordHits : ℚ) / r.keywordTotal

theorem nEff_pos (r : AnalyzedResult) : 0 < nEff r :=
  lt_max_of_lt_right Nat.one_pos

theorem scoreDen_pos (r : AnalyzedResult) : 0 < scoreDen r :=
  Nat.mul_pos (by norm_num) (nEff_pos r)

theorem analyze_keywordHits_le (cfg : EngineConfig) (job : DiscoveryJob)
    (aid : String) (doc : FetchedDocument) :
    (analyze cfg job aid doc).keywordHits ≤ (analyze cfg job aid doc).keywordTotal :=
  List.length_filter_le _ _

theorem emailMatch_eq (r : AnalyzedResult) :
    emailMatch r = ((min 3 r.targetEmails.length : Nat) : ℚ) / 3 := by
  rw [emailMatch]
  push_cast
  rw [show (1 : ℚ) = 3 / 3 by norm_num, min_div_div_right (by norm_num : (0:ℚ) ≤ 3)]

theorem keywordMatch_eq (r : AnalyzedResult)
    (hk : r.keywordHits ≤ r.keywordTotal) :
    keywordMatch r = (r.keywordHits : ℚ) / (nEff r) := by
  rcases Nat.eq_zero_or_pos r.keywordTotal with h0 | hpos
  · have hh : r.keywordHits = 0 := Nat.le_zero.mp (h0 ▸ hk)
    simp [keywordMatch, h0, hh]
  · have hn : nEff r = r.keywordTotal := Nat.max_eq_left hpos
    simp [keywordMatch, Nat.pos_iff_ne_zero.mp hpos, hn]

/-- The relevance score is exactly the weighted sum of the spec for every
result whose keyword-hit count does not exceed its keyword total (as holds
for every output of `analyze`). -/
theorem relevanceScore_eq_weighted (r : AnalyzedResult)
    (hk : r.keywordHits ≤ r.keywordTotal) :
    relevanceScore r =
      2/5 * domainMatch r + 3/10 * emailMatch r + 3/10 * keywordMatch r := by
  have hn : (0 : ℚ) < (nEff r : ℚ) := by exact_mod_cast nEff_pos r
  have hne : ((nEff r : ℚ)) ≠ 0 := ne_of_gt hn
  rw [emailMatch_eq, keywordMatch_eq r hk, relevanceScore, scoreNum, scoreDen,
    domainMatch]
  cases hd : r.domainHit <;>
    · simp only [Bool.false_eq_true, if_true, if_false]
      push_cast
      field_simp
      try ring

theorem domainMatch_bounds (r : AnalyzedResult) :
    0 ≤ domainMatch r ∧ domainMatch r ≤ 1 := by
  rw [domainMatch]; split <;> norm_num

theorem emailMatch_bounds (r : AnalyzedResult) :
    0 ≤ emailMatch r ∧ emailMatch r ≤ 1 := by
  constructor
  · rw [emailMatch]
    exact le_min (by norm_num) (by positivity)
  · exact min_le_left _ _

theorem keywordMatch_bounds (r : AnalyzedResult)
    (hk : r.keywordHits ≤ r.keywordTotal) :
    0 ≤ keywordMatch r ∧ keywordMatch r ≤ 1 := by
  rw [keywordMatch]
  split
  · norm_num
  · rename_i h
    have hpos : (0 : ℚ) < r.keywordTotal := by
      exact_mod_cast Nat.pos_of_ne_zero h
    constructor
    · positivity
    · rw [div_le_one hpos]
      exact_mod_cast hk

theorem relevanceScore_bounds (r : AnalyzedResult)
    (hk : r.keywordHits ≤ r.keywordTotal) :
    0 ≤ relevanceScore r ∧ relevanceScore r ≤ 1 := by
  rw [relevanceScore_eq_weighted r hk]
  obtain ⟨d0, d1⟩ := domainMatch_bounds r
  obtain ⟨e0, e1⟩ := emailMatch_bounds r
  obtain ⟨k0, k1⟩ := keywordMatch_bounds r hk
  constructor <;> nlinarith

/-- C1: for every fetched document and job, the relevance score of the
Content Analyzer equals 0.4 x domainMatch + 0.3 x emailMatch +
0.3 x keywordMatch with each component in [0, 1]; a document containing the
target domain literally, at least 3 target-domain emails and all job
keywords scores exactly 1, and a document matching none of the three
components scores exactly 0. -/
theorem relevance_score_weighted_formula
    (cfg : EngineConfig) (job : DiscoveryJob) (aid : String)
    (doc : FetchedDocument) (r : AnalyzedResult)
    (hr : r = analyze cfg job aid doc) :
    relevanceScore r =
        2/5 * domainMatch r + 3/10 * emailMatch r + 3/10 * keywordMatch r
      ∧ (0 ≤ domainMatch r ∧ domainMatch r ≤ 1)
      ∧ (0 ≤ emailMatch r ∧ emailMatch r ≤ 1)
      ∧ (0 ≤ keywordMatch r ∧ keywordMatch r ≤ 1)
      ∧ (r.domainHit = true → 3 ≤ r.targetEmails.length →
          r.keywordHits = r.keywordTotal → r.keywordTotal ≠ 0 →
          relevanceScore r = 1)
      ∧ (r.domainHit = false → r.targetEmails.length = 0 →
          r.keywordHits = 0 → relevanceScore r = 0) := by
  have hk : r.keywordHits ≤ r.keywordTotal := by
    rw [hr]; exact analyze_keywordHits_le cfg job aid doc
  refine ⟨relevanceScore_eq_weighted r hk, domainMatch_bounds r,
    emailMatch_bounds r, keywordMatch_bounds r hk, ?_, ?_⟩
  · intro hd ht hm hn
    rw [relevanceScore_eq_weighted r hk, domainMatch, hd, emailMatch_eq,
      keywordMatch, if_neg hn, hm, Nat.min_eq_left ht]
    have : ((r.keywordTotal : ℚ)) ≠ 0 := by exact_mod_cast hn
    field_simp
    norm_num
  · intro hd ht hm
    have hkm : keywordMatch r = 0 := by simp [keywordMatch, hm]
    rw [relevanceScore_eq_weighted r hk, domainMatch, hd, emailMatch_eq, ht, hkm]
    norm_num

/-- A concrete engine configuration used by the closed witnesses: target
domain ui.ac.id, relevance floor 3/10, result cap 50, 3 retries. -/
def cfg0 : EngineConfig :=
  { targetDomain := "ui.ac.id", minRelNum := 3, minRelDen := 10,
    resultCap := 50, maxRetries := 3 }

/-- A concrete job used by the closed witnesses. -/
def job0 : DiscoveryJob :=
  { keywords := ["ui.ac.id", "password"], seedURLs := [],
    enableClearnet := true, enableDarknet := false, crawlAuthors := false }

/-- A concrete fetched document containing the target domain, three
target-domain emails and both keywords. -/
def doc0 : FetchedDocument :=
  { url := "https://pastebin.com/raw/aaa",
    rawText := "leak ui.ac.id a@ui.ac.id b@ui.ac.id c@ui.ac.id Password: x",
    author := "unknown", httpStatus := 200 }

theorem relevance_score_weighted_formula_witness :
    relevanceScore (analyze cfg0 job0 "pastebin" doc0) = 1 :=
  (relevance_score_weighted_formula cfg0 job0 "pastebin" doc0 _ rfl).2.2.2.2.1
    (by decide) (by decide) (by decide) (by decide)

/-! ## Sorting by a boolean total preorder

The final stage of the orchestrator sorts the surviving results by score
descending with ties broken by original position.  A bespoke insertion sort
keeps every step kernel-reducible. -/

/-- Inserts `a` into `l` before the first element `b` with `le a b`. -/
def insertBy {α : Type} (le : α → α → Bool) (a : α) : List α → List α
  | [] => [a]
  | b :: t => if le a b then a :: b :: t else b :: insertBy le a t

/-- Insertion sort with respect to a boolean total preorder. -/
def sortBy {α : Type} (le : α → α → Bool) (l : List α) : List α :=
  l.foldr (insertBy le) []

theorem insertBy_perm {α : Type} (le : α → α → Bool) (a : α) (l : List α) :
    (insertBy le a l).Perm (a :: l) := by
  induction l with
  | nil => exact List.Perm.refl _
  | cons b t ih =>
    rw [insertBy]
    split
    · exact List.Perm.refl _
    · exact (ih.cons b).trans (List.Perm.swap a b t)

theorem sortBy_perm {α : Type} (le : α → α → Bool) (l : List α) :
    (sortBy le l).Perm l := by
  induction l with
  | nil => exact List.Perm.refl _
  | cons a t ih =>
    exact (insertBy_perm le a (sortBy le t)).trans (ih.cons a)

theorem insertBy_sorted {α : Type} (le : α → α → Bool)
    (total : ∀ a b, le a b = true ∨ le b a = true)
    (tr : ∀ a b c, le a b = true → le b c = true → le a c = true)
    (a : α) (l : List α)
    (hl : l.Pairwise (fun x y => le x y = true)) :
    (insertBy le a l).Pairwise (fun x y => le x y = true) := by
  induction l with
  | nil => simp [insertBy]
  | cons b t ih =>
    rw [insertBy]
    rcases List.pairwise_cons.mp hl with ⟨hb, ht⟩
    split
    · rename_i hab
      refine List.pairwise_cons.mpr ⟨?_, hl⟩
      intro y hy
      rcases List.mem_cons.mp hy with rfl | hyt
      · exact hab
      · exact tr a b y hab (hb y hyt)
    · rename_i hab
      have hba : le b a = true := by
        rcases total a b with h | h
        · exact absurd h hab
        · exact h
      refine List.pairwise_cons.mpr ⟨?_, ih ht⟩
      intro y hy
      rcases List.mem_cons.mp ((insertBy_perm le a t).mem_iff.mp hy) with rfl | hyt
      · exact hba
      · exact hb y hyt

theorem sortBy_sorted {α : Type} (le : α → α → Bool)
    (total : ∀ a b, le a b = true ∨ le b a = true)
    (tr : ∀ a b c, le a b = true → le b c = true → le a c = true)
    (l : List α) :
    (sortBy le l).Pairwise (fun x y => le x y = true) := by
  induction l with
  | nil => exact List.Pairwise.nil
  | cons a t ih => exact insertBy_sorted le total tr a (sortBy le t) ih

/-- Two sorted lists that are permutations of each other and on which the
order is antisymmetric are equal. -/
theorem sorted_perm_eq {α : Type} (le : α → α → Bool) :
    ∀ (l₁ l₂ : List α),
    (∀ a ∈ l₁, ∀ b ∈ l₁, le a b = true → le b a = true → a = b) →
    l₁.Perm l₂ →
    l₁.Pairwise (fun x y => le x y = true) →
    l₂.Pairwise (fun x y => le x y = true) →
    l₁ = l₂
  | [], l₂, _, p, _, _ => (p.nil_eq).symm ▸ rfl
  | a :: t₁, l₂, anti, p, s₁, s₂ => by
    have ha₂ : a ∈ l₂ := p.mem_iff.mp (List.mem_cons_self a t₁)
    cases l₂ with
    | nil => exact absurd p.symm.nil_eq (by simp)
    | cons b t₂ =>
      rcases List.pairwise_cons.mp s₁ with ⟨h₁, st₁⟩
      rcases List.pairwise_cons.mp s₂ with ⟨h₂, st₂⟩
      have hb₁ : b ∈ a :: t₁ := p.symm.mem_iff.mp (List.mem_cons_self b t₂)
      have hab : a = b := by
        rcases List.mem_cons.mp ha₂ with rfl | ha₂t
        · rfl
        · rcases List.mem_cons.mp hb₁ with rfl | hb₁t
          · rfl
          · exact anti a (List.mem_cons_self a t₁) b hb₁
              (h₁ b hb₁t) (h₂ a ha₂t)
      subst hab
      have htp : t₁.Perm t₂ := p.cons_inv
      have : t₁ = t₂ :=
        sorted_perm_eq le t₁ t₂
          (fun x hx y hy => anti x (List.mem_cons_of_mem a hx)
            y (List.mem_cons_of_mem a hy))
          htp st₁ st₂
      rw [this]

/-! ## Fetcher (spec section 4.1)

Modelled from the spec: the HTTP client of the engine is not in the
snapshot.  The network is a function from URL and attempt index to an
outcome; the Fetcher validates the URL, then retries transient failures up
to `maxRetries`.  SSRF-pattern URLs (loopback, link-local, credentials in
the URL, per spec sections 4.1 and 7 and the validation rules of
src/docs/IMPROVEMENTS_SUMMARY.md) are rejected before any network call.
Backoff delays and per-host rate limiting are real-time behaviour outside
the shallow embedding. -/

/-- Strips the http or https scheme, returning the remainder of the URL;
`none` for any other scheme. -/
def stripScheme (u : String) : Option (List Char) :=
  if "http://".data.isPrefixOf u.data then some (u.data.drop 7)
  else if "https://".data.isPrefixOf u.data then some (u.data.drop 8)
  else none

/-- The authority part of a URL: everything between the scheme and the
first slash. -/
def authorityOf (u : String) : Option (List Char) :=
  (stripScheme u).map (List.takeWhile (· ≠ '/'))

/-- The host of an authority: what follows the last `@` and comes before
the port separator. -/
def hostOf (auth : List Char) : List Char :=
  (auth.foldl (fun acc c => if c = '@' then [] else c :: acc) []).reverse
    |>.takeWhile (· ≠ ':')

/-- Whether a host is a loopback or link-local address. -/
def loopbackOrLinkLocal (host : List Char) : Bool :=
  host = "localhost".data || "127.".data.isPrefixOf host ||
  host = "0.0.0.0".data || "169.254.".data.isPrefixOf host ||
  host = "[::1]".data

/-- Whether a URL matches an SSRF pattern: loopback or link-local host, or
credentials embedded in the authority. -/
def ssrfMatch (u : String) : Bool :=
  match authorityOf u with
  | none => false
  | some auth => auth.contains '@' || loopbackOrLinkLocal (hostOf auth)

/-- One network outcome for a given URL and attempt index. -/
inductive NetOutcome
  | success (rawText author : String) (status : Nat)
  | transient
  | http (status : Nat)

/-- A network model: outcome per URL and attempt index. -/
def Network : Type := String → Nat → NetOutcome

/-- HTTP statuses that are retried: 5xx and 429 (spec section 4.1). -/
def transientStatus (s : Nat) : Bool :=
  decide (500 ≤ s) || decide (s = 429)

/-- The error kind reported for a terminal HTTP status. -/
def kindOfStatus (s : Nat) : FetchErrorKind :=
  if s = 429 then .RateLimited else .HTTPError s

/-- The retry loop of the Fetcher: attempts the fetch, retrying transient
failures while fuel remains.  Returns the fetched body (raw text, author,
status) or the terminal error, and the number of network attempts. -/
def retryLoop (net : Network) (url : String) :
    Nat → Nat → Except FetchErrorKind (String × String × Nat) × Nat
  | _, 0 => (.error .Timeout, 0)
  | attempt, fuel + 1 =>
    match net url attempt with
    | .success txt auth st => (.ok (txt, auth, st), 1)
    | .transient =>
      match fuel with
      | 0 => (.error .Timeout, 1)
      | f + 1 =>
        let r := retryLoop net url (attempt + 1) (f + 1)
        (r.1, r.2 + 1)
    | .http st =>
      if transientStatus st then
        match fuel with
        | 0 => (.error (kindOfStatus st), 1)
        | f + 1 =>
          let r := retryLoop net url (attempt + 1) (f + 1)
          (r.1, r.2 + 1)
      else (.error (kindOfStatus st), 1)

/-- The Fetcher: validates the URL (SSRF pattern, scheme) and only then
touches the network, with up to `maxRetries` retries.  Returns the outcome
and the number of network attempts performed. -/
def fetchURL (cfg : EngineConfig) (net : Network) (url : String) :
    Except FetchErrorKind FetchedDocument × Nat :=
  if ssrfMatch url then (.error .SSRFRejected, 0)
  else if (stripScheme url).isNone then (.error .MalformedResponse, 0)
  else
    let r := retryLoop net url 0 (cfg.maxRetries + 1)
    (r.1.map (fun p => ⟨url, p.1, p.2.1, p.2.2⟩), r.2)

theorem fetchURL_ok_url (cfg : EngineConfig) (net : Network) (url : String)
    (d : FetchedDocument) (h : (fetchURL cfg net url).1 = .ok d) :
    d.url = url := by
  rw [fetchURL] at h
  split at h
  · cases h
  · split at h
    · cases h
    · dsimp only at h
      rcases hr : (retryLoop net url 0 (cfg.maxRetries + 1)).1 with k | p <;>
        rw [hr] at h
      · cases h
      · cases h
        rfl

/-- C5: every URL matching an SSRF pattern is rejected with SSRFRejected,
with zero network attempts (so it is neither fetched nor retried), and the
outcome is independent of the network. -/
theorem ssrf_rejected_no_fetch (cfg : EngineConfig) (net : Network)
    (url : String) (h : ssrfMatch url = true) :
    fetchURL cfg net url = (.error .SSRFRejected, 0)
      ∧ (fetchURL cfg net url).2 = 0
      ∧ ∀ net' : Network, fetchURL cfg net' url = fetchURL cfg net url := by
  refine ⟨by rw [fetchURL, if_pos h], ?_, ?_⟩
  · rw [fetchURL, if_pos h]
  · intro net'
    rw [fetchURL, if_pos h, fetchURL, if_pos h]

theorem ssrf_rejected_no_fetch_witness :
    fetchURL cfg0 (fun _ _ => .transient) "http://127.0.0.1/secret" =
      (.error .SSRFRejected, 0) :=
  (ssrf_rejected_no_fetch cfg0 (fun _ _ => .transient)
    "http://127.0.0.1/secret" (by decide)).1

/-! ## Source Adapters (spec section 4.2)

Modelled from the spec: the adapter classes of the engine are not in the
snapshot.  An adapter is discovery data: a primary search (returning `none`
on request failure), an archive fallback, and author discovery.  The
darkweb family has no search endpoint, which an instance models by a
primary that always returns `none`. -/

/-- The adapter families of the spec. -/
inductive AdapterKind
  | clearnet
  | darkweb
deriving DecidableEq, Repr

/-- A Source Adapter (spec section 4.2). -/
structure Adapter where
  id : String
  kind : AdapterKind
  primaryDiscover : String → Option (List String)
  fallbackDiscover : String → List String
  discoverByAuthor : String → List String

/-- The adapters a job enables (spec sections 3 and 4.6). -/
def enabledAdapters (adapters : List Adapter) (job : DiscoveryJob) :
    List Adapter :=
  adapters.filter fun a =>
    match a.kind with
    | .clearnet => job.enableClearnet
    | .darkweb => job.enableDarknet

/-- One discovery step for one adapter and keyword: primary search first;
if it fails or yields nothing, the archive fallback (spec section 4.2 and
PASTEBIN_SEARCH_FEATURE.md).  Returns the candidates and whether the
fallback was used. -/
def discoverKeyword (a : Adapter) (kw : String) : List Candidate × Bool :=
  match a.primaryDiscover kw with
  | some (u :: us) => (((u :: us)).map fun url => ⟨url, a.id, .keywordSearch⟩, false)
  | some [] => ((a.fallbackDiscover kw).map fun url => ⟨url, a.id, .archiveFallback⟩, true)
  | none => ((a.fallbackDiscover kw).map fun url => ⟨url, a.id, .archiveFallback⟩, true)

/-- A trace entry of the discovery phase: which adapter handled which
keyword, and whether it used the archive fallback. -/
structure DiscoEvent where
  adapterID : String
  kw : String
  usedFallback : Bool
deriving DecidableEq, Repr

/-- One trace event per keyword and adapter of the given lists. -/
def eventsFor (ads : List Adapter) (kws : List String) : List DiscoEvent :=
  kws.flatMap fun kw => ads.map fun a => ⟨a.id, kw, (discoverKeyword a kw).2⟩

/-- The discovery-phase trace: one event per keyword and enabled adapter. -/
def discoveryEvents (adapters : List Adapter) (job : DiscoveryJob) :
    List DiscoEvent :=
  eventsFor (enabledAdapters adapters job) job.keywords

/-- The candidates of the discovery phase: keyword discovery over every
keyword and enabled adapter, then the seed URLs (spec section 4.6). -/
def discoveryCandidates (adapters : List Adapter) (job : DiscoveryJob) :
    List Candidate :=
  (job.keywords.flatMap fun kw =>
    (enabledAdapters adapters job).flatMap fun a => (discoverKeyword a kw).1)
    ++ job.seedURLs.map fun u => ⟨u, "seed", .seedInput⟩

/-! ## Dedup/Frontier (spec section 4.4) -/

/-- Removes candidates whose URL was already seen, first write wins. -/
def dedupByURLAux (seen : List String) : List Candidate → List Candidate
  | [] => []
  | c :: t =>
    if c.url ∈ seen then dedupByURLAux seen t
    else c :: dedupByURLAux (c.url :: seen) t

/-- De-duplicates a candidate list by URL, keeping first occurrences. -/
def dedupByURL (l : List Candidate) : List Candidate :=
  dedupByURLAux [] l

theorem dedupByURLAux_not_seen (seen : List String) (l : List Candidate) :
    ∀ c ∈ dedupByURLAux seen l, c.url ∉ seen := by
  induction l generalizing seen with
  | nil => simp [dedupByURLAux]
  | cons c t ih =>
    rw [dedupByURLAux]
    split
    · exact ih seen
    · rename_i hc
      intro x hx
      rcases List.mem_cons.mp hx with rfl | hxt
      · exact hc
      · have := ih (c.url :: seen) x hxt
        exact fun hxs => this (List.mem_cons_of_mem _ hxs)

theorem dedupByURLAux_nodup (seen : List String) (l : List Candidate) :
    ((dedupByURLAux seen l).map Candidate.url).Nodup := by
  induction l generalizing seen with
  | nil => simp [dedupByURLAux]
  | cons c t ih =>
    rw [dedupByURLAux]
    split
    · exact ih seen
    · rw [List.map_cons, List.nodup_cons]
      refine ⟨?_, ih (c.url :: seen)⟩
      intro hmem
      rcases List.mem_map.mp hmem with ⟨x, hx, hxu⟩
      exact dedupByURLAux_not_seen (c.url :: seen) t x hx
        (hxu ▸ List.mem_cons_self _ _)

theorem dedupByURL_nodup (l : List Candidate) :
    ((dedupByURL l).map Candidate.url).Nodup :=
  dedupByURLAux_nodup [] l

theorem dedupByURLAux_subset (seen : List String) (l : List Candidate) :
    ∀ c ∈ dedupByURLAux seen l, c ∈ l := by
  induction l generalizing seen with
  | nil => simp [dedupByURLAux]
  | cons c t ih =>
    rw [dedupByURLAux]
    split
    · exact fun x hx => List.mem_cons_of_mem c (ih seen x hx)
    · intro x hx
      rcases List.mem_cons.mp hx with rfl | hxt
      · exact List.mem_cons_self _ _
      · exact List.mem_cons_of_mem c (ih (c.url :: seen) x hxt)

theorem dedupByURL_subset (l : List Candidate) :
    ∀ c ∈ dedupByURL l, c ∈ l :=
  dedupByURLAux_subset [] l

/-! ## Fetch phase (spec section 4.6, Discovering to Fetching)

Modelled from the spec: candidates not yet seen are marked seen and
fetched; every fetch failure is recorded as an AdapterError and does not
abort the run.  The bounded worker pool is real concurrency outside the
shallow embedding; claim C7 shows the output does not depend on the
completion order it introduces. -/

/-- Processes a candidate list against the Dedup/Frontier set: skips seen
URLs, marks and fetches the rest.  Returns the final seen set, the fetched
documents tagged with their adapter, and the recorded errors. -/
def fetchPhase (cfg : EngineConfig) (net : Network) (seen : List String) :
    List Candidate →
      List String × List (String × FetchedDocument) × List AdapterError
  | [] => (seen, [], [])
  | c :: cs =>
    if c.url ∈ seen then fetchPhase cfg net seen cs
    else
      match (fetchURL cfg net c.url).1 with
      | .ok doc =>
        let r := fetchPhase cfg net (c.url :: seen) cs
        (r.1, (c.adapterID, doc) :: r.2.1, r.2.2)
      | .error k =>
        let r := fetchPhase cfg net (c.url :: seen) cs
        (r.1, r.2.1, ⟨k, c.url, c.adapterID⟩ :: r.2.2)

theorem fetchPhase_seen_subset (cfg : EngineConfig) (net : Network)
    (cs : List Candidate) : ∀ seen, seen ⊆ (fetchPhase cfg net seen cs).1 := by
  induction cs with
  | nil => intro seen; simp [fetchPhase]
  | cons c cs ih =>
    intro seen
    rw [fetchPhase]
    split
    · exact ih seen
    · rcases h : (fetchURL cfg net c.url).1 with k | doc <;>
        · dsimp only
          exact fun x hx =>
            ih (c.url :: seen) (List.mem_cons_of_mem _ hx)

theorem fetchPhase_docs_urls (cfg : EngineConfig) (net : Network)
    (cs : List Candidate) :
    ∀ seen,
      (∀ p ∈ (fetchPhase cfg net seen cs).2.1, p.2.url ∉ seen) ∧
      (∀ p ∈ (fetchPhase cfg net seen cs).2.1,
        p.2.url ∈ (fetchPhase cfg net seen cs).1) ∧
      ((fetchPhase cfg net seen cs).2.1.map (fun p => p.2.url)).Nodup ∧
      (∀ p ∈ (fetchPhase cfg net seen cs).2.1, p.2.url ∈ cs.map Candidate.url) := by
  induction cs with
  | nil => intro seen; simp [fetchPhase]
  | cons c cs ih =>
    intro seen
    rw [fetchPhase]
    split
    · rename_i hseen
      obtain ⟨h1, h2, h3, h4⟩ := ih seen
      exact ⟨h1, h2, h3, fun p hp => List.mem_cons_of_mem _ (h4 p hp)⟩
    · rename_i hseen
      rcases h : (fetchURL cfg net c.url).1 with k | doc
      · dsimp only
        obtain ⟨h1, h2, h3, h4⟩ := ih (c.url :: seen)
        refine ⟨?_, h2, h3, fun p hp => List.mem_cons_of_mem _ (h4 p hp)⟩
        intro p hp hs
        exact h1 p hp (List.mem_cons_of_mem _ hs)
      · dsimp only
        obtain ⟨h1, h2, h3, h4⟩ := ih (c.url :: seen)
        have hdu : doc.url = c.url := fetchURL_ok_url cfg net c.url doc h
        refine ⟨?_, ?_, ?_, ?_⟩
        · intro p hp
          rcases List.mem_cons.mp hp with rfl | hpt
          · rw [hdu]; exact hseen
          · intro hs
            exact h1 p hpt (List.mem_cons_of_mem _ hs)
        · intro p hp
          rcases List.mem_cons.mp hp with rfl | hpt
          · have : c.url ∈ (fetchPhase cfg net (c.url :: seen) cs).1 :=
              fetchPhase_seen_subset cfg net cs (c.url :: seen)
                (List.mem_cons_self _ _)
            rw [hdu]; exact this
          · exact h2 p hpt
        · rw [List.map_cons, List.nodup_cons]
          refine ⟨?_, h3⟩
          intro hmem
          rcases List.mem_map.mp hmem with ⟨p, hp, hpu⟩
          exact h1 p hp (hpu ▸ hdu ▸ List.mem_cons_self _ _)
        · intro p hp
          rcases List.mem_cons.mp hp with rfl | hpt
          · rw [List.map_cons]; exact hdu ▸ List.mem_cons_self _ _
          · exact List.mem_cons_of_mem _ (h4 p hpt)

/-- Every candidate whose URL was not yet seen and whose fetch fails has
its error recorded, provided the candidate URLs are distinct. -/
theorem fetchPhase_errors_recorded (cfg : EngineConfig) (net : Network)
    (cs : List Candidate) :
    ∀ seen, (cs.map Candidate.url).Nodup →
      ∀ c ∈ cs, c.url ∉ seen →
        ∀ k, (fetchURL cfg net c.url).1 = .error k →
          (⟨k, c.url, c.adapterID⟩ : AdapterError) ∈
            (fetchPhase cfg net seen cs).2.2 := by
  induction cs with
  | nil => simp
  | cons c cs ih =>
    intro seen hnd x hx hxs k hk
    rw [List.map_cons, List.nodup_cons] at hnd
    rw [fetchPhase]
    rcases List.mem_cons.mp hx with rfl | hxt
    · rw [if_neg hxs, hk]
      dsimp only
      exact List.mem_cons_self _ _
    · have hxu : x.url ≠ c.url := by
        intro he
        exact hnd.1 (he ▸ List.mem_map_of_mem Candidate.url hxt)
      split
      · exact ih seen hnd.2 x hxt hxs k hk
      · rcases h : (fetchURL cfg net c.url).1 with k' | doc <;>
          · dsimp only
            have hmem := ih (c.url :: seen) hnd.2 x hxt
              (by
                intro hs
                rcases List.mem_cons.mp hs with he | hs'
                · exact hxu he
                · exact hxs hs') k hk
            first
            | exact List.mem_cons_of_mem _ hmem
            | exact hmem

/-! ## Score comparison and the final ordering

The final ordering is score descending, ties broken by the original
position of the result (most-recent-first per original adapter ordering,
spec sections 4.2 and 5).  Scores are compared by cross multiplication so
the order is kernel-computable. -/

/-- Whether the relevance floor of the configuration is at most the score
of a result, by cross multiplication. -/
def aboveFloor (cfg : EngineConfig) (r : AnalyzedResult) : Bool :=
  decide (cfg.minRelNum * scoreDen r ≤ cfg.minRelDen * scoreNum r)

theorem aboveFloor_iff (cfg : EngineConfig) (r : AnalyzedResult)
    (hden : 0 < cfg.minRelDen) :
    aboveFloor cfg r = true ↔ cfg.floorQ ≤ relevanceScore r := by
  have hd : (0 : ℚ) < (cfg.minRelDen : ℚ) := by exact_mod_cast hden
  have hs : (0 : ℚ) < (scoreDen r : ℚ) := by exact_mod_cast scoreDen_pos r
  rw [aboveFloor, decide_eq_true_iff, EngineConfig.floorQ, relevanceScore,
    div_le_div_iff₀ hd hs]
  constructor
  · intro h
    calc (cfg.minRelNum : ℚ) * (scoreDen r : ℚ)
        = ((cfg.minRelNum * scoreDen r : Nat) : ℚ) := by push_cast; ring
      _ ≤ ((cfg.minRelDen * scoreNum r : Nat) : ℚ) := by exact_mod_cast h
      _ = (scoreNum r : ℚ) * (cfg.minRelDen : ℚ) := by push_cast; ring
  · intro h
    have : ((cfg.minRelNum * scoreDen r : Nat) : ℚ) ≤
        ((cfg.minRelDen * scoreNum r : Nat) : ℚ) := by
      push_cast
      linarith
    exact_mod_cast this

/-- The boolean order of the final sort on position-tagged results:
strictly higher score first, ties broken by lower original position. -/
def resultOrder (a b : Nat × AnalyzedResult) : Bool :=
  decide (scoreNum b.2 * scoreDen a.2 < scoreNum a.2 * scoreDen b.2) ||
    (decide (scoreNum a.2 * scoreDen b.2 = scoreNum b.2 * scoreDen a.2) &&
      decide (a.1 ≤ b.1))

theorem scoreNum_cross_le_iff (a b : AnalyzedResult) :
    scoreNum b * scoreDen a ≤ scoreNum a * scoreDen b ↔
      relevanceScore b ≤ relevanceScore a := by
  have ha : (0 : ℚ) < (scoreDen a : ℚ) := by exact_mod_cast scoreDen_pos a
  have hb : (0 : ℚ) < (scoreDen b : ℚ) := by exact_mod_cast scoreDen_pos b
  rw [relevanceScore, relevanceScore, div_le_div_iff₀ hb ha]
  constructor
  · intro h
    calc (scoreNum b : ℚ) * (scoreDen a : ℚ)
        = ((scoreNum b * scoreDen a : Nat) : ℚ) := by push_cast; ring
      _ ≤ ((scoreNum a * scoreDen b : Nat) : ℚ) := by exact_mod_cast h
      _ = (scoreNum a : ℚ) * (scoreDen b : ℚ) := by push_cast; ring
  · intro h
    have : ((scoreNum b * scoreDen a : Nat) : ℚ) ≤
        ((scoreNum a * scoreDen b : Nat) : ℚ) := by
      push_cast
      linarith
    exact_mod_cast this

theorem scoreNum_cross_lt_iff (a b : AnalyzedResult) :
    scoreNum b * scoreDen a < scoreNum a * scoreDen b ↔
      relevanceScore b < relevanceScore a := by
  rw [← Nat.not_le, ← not_le, scoreNum_cross_le_iff]

theorem scoreNum_cross_eq_iff (a b : AnalyzedResult) :
    scoreNum a * scoreDen b = scoreNum b * scoreDen a ↔
      relevanceScore a = relevanceScore b := by
  constructor
  · intro h
    exact le_antisymm ((scoreNum_cross_le_iff b a).mp (le_of_eq h))
      ((scoreNum_cross_le_iff a b).mp (le_of_eq h.symm))
  · intro h
    exact Nat.le_antisymm ((scoreNum_cross_le_iff b a).mpr (le_of_eq h))
      ((scoreNum_cross_le_iff a b).mpr (le_of_eq h.symm))

theorem resultOrder_iff (a b : Nat × AnalyzedResult) :
    resultOrder a b = true ↔
      (relevanceScore b.2 < relevanceScore a.2 ∨
        (relevanceScore a.2 = relevanceScore b.2 ∧ a.1 ≤ b.1)) := by
  rw [resultOrder]
  simp only [Bool.or_eq_true, Bool.and_eq_true, decide_eq_true_iff,
    scoreNum_cross_lt_iff, scoreNum_cross_eq_iff]

theorem resultOrder_total (a b : Nat × AnalyzedResult) :
    resultOrder a b = true ∨ resultOrder b a = true := by
  rw [resultOrder_iff, resultOrder_iff]
  rcases lt_trichotomy (relevanceScore b.2) (relevanceScore a.2) with h | h | h
  · exact Or.inl (Or.inl h)
  · rcases Nat.le_total a.1 b.1 with hi | hi
    · exact Or.inl (Or.inr ⟨h.symm, hi⟩)
    · exact Or.inr (Or.inr ⟨h, hi⟩)
  · exact Or.inr (Or.inl h)

theorem resultOrder_trans (a b c : Nat × AnalyzedResult)
    (hab : resultOrder a b = true) (hbc : resultOrder b c = true) :
    resultOrder a c = true := by
  rw [resultOrder_iff] at hab hbc ⊢
  rcases hab with hab | ⟨hab, hiab⟩ <;> rcases hbc with hbc | ⟨hbc, hibc⟩
  · exact Or.inl (hbc.trans hab)
  · exact Or.inl (lt_of_le_of_lt (le_of_eq hbc.symm) hab)
  · exact Or.inl (lt_of_lt_of_le hbc (le_of_eq hab.symm))
  · exact Or.inr ⟨hab.trans hbc, hiab.trans hibc⟩

/-- When both directions of the order hold and the positions differ, the
scores and the positions must both coincide. -/
theorem resultOrder_antisymm_fields (a b : Nat × AnalyzedResult)
    (hab : resultOrder a b = true) (hba : resultOrder b a = true) :
    relevanceScore a.2 = relevanceScore b.2 ∧ a.1 = b.1 := by
  rw [resultOrder_iff] at hab hba
  rcases hab with hab | ⟨hab, hiab⟩ <;> rcases hba with hba | ⟨hba, hiba⟩
  · exact absurd (hab.trans hba) (lt_irrefl _)
  · exact absurd hab (hba ▸ lt_irrefl _)
  · exact absurd hba (hab ▸ lt_irrefl _)
  · exact ⟨hab, Nat.le_antisymm hiab hiba⟩

/-- The completion stage: sorts position-tagged survivors by the final
order and truncates to the result cap (spec section 4.6). -/
def finalizeTagged (cap : Nat) (l : List (Nat × AnalyzedResult)) :
    List AnalyzedResult :=
  ((sortBy resultOrder l).take cap).map Prod.snd

/-! ## Job validation (spec sections 3, 4.6 and 7)

Modelled from the spec: the request validators of `api/main.py` are not in
the snapshot; the limits follow the API request limits of
AUTO_DISCOVERY_GUIDE.md lines 170-182 (keywords max 5 per request, each
3 to 100 characters, URLs max 20 per request) and the job-level error
conditions of spec section 4.6 (no enabled sources; zero keywords and zero
seed URLs). -/

/-- Validates a job before any network activity: `none` when the job is
runnable, otherwise the job-level error. -/
def validateJob (job : DiscoveryJob) (adapters : List Adapter) :
    Option JobError :=
  if (enabledAdapters adapters job).isEmpty then some .NoEnabledSources
  else if job.keywords.isEmpty && job.seedURLs.isEmpty then
    some .InvalidJobInput
  else if decide (5 < job.keywords.length) then some .InvalidJobInput
  else if !(job.keywords.all fun k =>
      decide (3 ≤ k.length) && decide (k.length ≤ 100)) then
    some .InvalidJobInput
  else if decide (20 < job.seedURLs.length) then some .InvalidJobInput
  else none

/-! ## Author Expander (spec section 4.5) -/

/-- The adapter with a given id, if registered. -/
def adapterById (adapters : List Adapter) (aid : String) : Option Adapter :=
  adapters.find? (fun a => a.id = aid)

/-- The candidates obtained by expanding the authors of the given results:
only results whose author is known are expanded, through the originating
adapter (spec section 4.5). -/
def expansionCandidates (adapters : List Adapter)
    (results : List AnalyzedResult) : List Candidate :=
  results.flatMap fun r =>
    if r.author = "unknown" then []
    else
      match adapterById adapters r.adapterID with
      | none => []
      | some a =>
        (a.discoverByAuthor r.author).map fun u =>
          ⟨u, r.adapterID, .authorExpansion⟩

/-! ## The Discovery Orchestrator (spec section 4.6)

Modelled from the spec: `DiscoveryOrchestrator` of the engine is not in
the snapshot.  The run is the composition of the named stages below:
discovery, dedup, first fetch round, analysis, floor filter, one round of
author expansion, second fetch round and analysis, then completion. -/

/-- Analyzes a list of fetched documents tagged with their adapter. -/
def analyzeDocs (cfg : EngineConfig) (job : DiscoveryJob)
    (docs : List (String × FetchedDocument)) : List AnalyzedResult :=
  docs.map fun p => analyze cfg job p.1 p.2

/-- The first fetch round: de-duplicated discovery candidates against an
empty frontier. -/
def round1 (cfg : EngineConfig) (adapters : List Adapter) (net : Network)
    (job : DiscoveryJob) :
    List String × List (String × FetchedDocument) × List AdapterError :=
  fetchPhase cfg net [] (dedupByURL (discoveryCandidates adapters job))

/-- The above-floor results of the first round. -/
def round1Survivors (cfg : EngineConfig) (adapters : List Adapter)
    (net : Network) (job : DiscoveryJob) : List AnalyzedResult :=
  (analyzeDocs cfg job (round1 cfg adapters net job).2.1).filter
    (aboveFloor cfg)

/-- The de-duplicated author-expansion candidates: one round, computed only
from the survivors of the first round (spec section 4.5, depth 1). -/
def expCandidates (cfg : EngineConfig) (adapters : List Adapter)
    (net : Network) (job : DiscoveryJob) : List Candidate :=
  if job.crawlAuthors then
    dedupByURL
      (expansionCandidates adapters (round1Survivors cfg adapters net job))
  else []

/-- The second fetch round: expansion candidates against the frontier left
by the first round. -/
def round2 (cfg : EngineConfig) (adapters : List Adapter) (net : Network)
    (job : DiscoveryJob) :
    List String × List (String × FetchedDocument) × List AdapterError :=
  fetchPhase cfg net (round1 cfg adapters net job).1
    (expCandidates cfg adapters net job)

/-- The above-floor results of the expansion round. -/
def round2Survivors (cfg : EngineConfig) (adapters : List Adapter)
    (net : Network) (job : DiscoveryJob) : List AnalyzedResult :=
  (analyzeDocs cfg job (round2 cfg adapters net job).2.1).filter
    (aboveFloor cfg)

/-- Every above-floor result of the run, in discovery order. -/
def survivorsOf (cfg : EngineConfig) (adapters : List Adapter)
    (net : Network) (job : DiscoveryJob) : List AnalyzedResult :=
  round1Survivors cfg adapters net job ++ round2Survivors cfg adapters net job

/-- The URLs the run fetched (both rounds). -/
def fetchedUrlsOf (cfg : EngineConfig) (adapters : List Adapter)
    (net : Network) (job : DiscoveryJob) : List String :=
  ((round1 cfg adapters net job).2.1 ++ (round2 cfg adapters net job).2.1).map
    fun p => p.2.url

/-- The sole entry point of the engine (spec section 6): validates the job,
then runs discovery, fetch, analysis, one expansion round and completion. -/
def RunDiscovery (cfg : EngineConfig) (adapters : List Adapter)
    (net : Network) (job : DiscoveryJob) : Except JobError RunReport :=
  match validateJob job adapters with
  | some e => .error e
  | none =>
    .ok
      { results :=
          finalizeTagged cfg.resultCap (survivorsOf cfg adapters net job).enum
        totalCandidatesSeen :=
          (dedupByURL (discoveryCandidates adapters job)).length +
            (expCandidates cfg adapters net job).length
        totalFetched :=
          (round1 cfg adapters net job).2.1.length +
            (round2 cfg adapters net job).2.1.length
        totalAboveThreshold := (survivorsOf cfg adapters net job).length
        errors :=
          (round1 cfg adapters net job).2.2 ++
            (round2 cfg adapters net job).2.2 }

/-- The results of a run outcome; a failed run has none. -/
def resultsOf : Except JobError RunReport → List AnalyzedResult
  | .ok rep => rep.results
  | .error _ => []

/-- The recorded errors of a run outcome; a failed run has none. -/
def runErrorsOf : Except JobError RunReport → List AdapterError
  | .ok rep => rep.errors
  | .error _ => []

/-- A clearnet adapter used by the closed witnesses. -/
def adapterA : Adapter :=
  { id := "pastebin", kind := .clearnet,
    primaryDiscover := fun kw =>
      if kw = "ui.ac.id" then some ["https://pastebin.com/raw/aaa"]
      else some [],
    fallbackDiscover := fun _ => [],
    discoverByAuthor := fun _ => [] }

/-- A network fixture used by the closed witnesses. -/
def netA : Network := fun u _ =>
  if u = "https://pastebin.com/raw/aaa" then
    .success "leak ui.ac.id a@ui.ac.id b@ui.ac.id c@ui.ac.id Password: x"
      "unknown" 200
  else .http 404

/-! ## Claim C2: URL uniqueness and the relevance floor -/

theorem analyze_url (cfg : EngineConfig) (job : DiscoveryJob) (aid : String)
    (doc : FetchedDocument) : (analyze cfg job aid doc).url = doc.url := rfl

theorem analyzeDocs_map_url (cfg : EngineConfig) (job : DiscoveryJob)
    (docs : List (String × FetchedDocument)) :
    (analyzeDocs cfg job docs).map AnalyzedResult.url =
      docs.map fun p => p.2.url := by
  simp [analyzeDocs, List.map_map]
  intro a b _
  rfl

theorem survivors_aboveFloor (cfg : EngineConfig) (adapters : List Adapter)
    (net : Network) (job : DiscoveryJob) :
    ∀ r ∈ survivorsOf cfg adapters net job, aboveFloor cfg r = true := by
  intro r hr
  rcases List.mem_append.mp hr with h | h
  · exact (List.mem_filter.mp h).2
  · exact (List.mem_filter.mp h).2

theorem survivors_urls_nodup (cfg : EngineConfig) (adapters : List Adapter)
    (net : Network) (job : DiscoveryJob) :
    ((survivorsOf cfg adapters net job).map AnalyzedResult.url).Nodup := by
  obtain ⟨h1a, h1b, h1c, _⟩ :=
    fetchPhase_docs_urls cfg net
      (dedupByURL (discoveryCandidates adapters job)) []
  obtain ⟨h2a, _, h2c, _⟩ :=
    fetchPhase_docs_urls cfg net (expCandidates cfg adapters net job)
      (round1 cfg adapters net job).1
  have hs1 : List.Sublist
      ((round1Survivors cfg adapters net job).map AnalyzedResult.url)
      ((round1 cfg adapters net job).2.1.map fun p => p.2.url) := by
    rw [← analyzeDocs_map_url]
    exact (List.filter_sublist _).map _
  have hs2 : List.Sublist
      ((round2Survivors cfg adapters net job).map AnalyzedResult.url)
      ((round2 cfg adapters net job).2.1.map fun p => p.2.url) := by
    rw [← analyzeDocs_map_url]
    exact (List.filter_sublist _).map _
  rw [survivorsOf, List.map_append, List.nodup_append]
  refine ⟨hs1.nodup h1c, hs2.nodup h2c, ?_⟩
  intro u hu1 hu2
  have hu1' := hs1.subset hu1
  have hu2' := hs2.subset hu2
  rcases List.mem_map.mp hu1' with ⟨p, hp, hpu⟩
  rcases List.mem_map.mp hu2' with ⟨q, hq, hqu⟩
  have hseen : p.2.url ∈ (round1 cfg adapters net job).1 := h1b p hp
  have hnot : q.2.url ∉ (round1 cfg adapters net job).1 := h2a q hq
  exact hnot (hqu ▸ hpu ▸ hseen)

theorem mem_finalizeTagged (cap : Nat) (l : List (Nat × AnalyzedResult))
    (r : AnalyzedResult) (hr : r ∈ finalizeTagged cap l) :
    r ∈ l.map Prod.snd := by
  rcases List.mem_map.mp hr with ⟨p, hp, hpr⟩
  have hps : p ∈ sortBy resultOrder l := (List.take_subset _ _) hp
  have hpl : p ∈ l := (sortBy_perm resultOrder l).mem_iff.mp hps
  exact hpr ▸ List.mem_map_of_mem Prod.snd hpl

theorem resultsOf_run (cfg : EngineConfig) (adapters : List Adapter)
    (net : Network) (job : DiscoveryJob)
    (h : validateJob job adapters = none) :
    resultsOf (RunDiscovery cfg adapters net job) =
      finalizeTagged cfg.resultCap (survivorsOf cfg adapters net job).enum := by
  rw [RunDiscovery, h]
  rfl

theorem mem_resultsOf_mem_survivors (cfg : EngineConfig)
    (adapters : List Adapter) (net : Network) (job : DiscoveryJob)
    (r : AnalyzedResult) (hr : r ∈ resultsOf (RunDiscovery cfg adapters net job)) :
    r ∈ survivorsOf cfg adapters net job := by
  rcases hv : validateJob job adapters with e | e
  · rw [resultsOf_run cfg adapters net job hv] at hr
    have := mem_finalizeTagged _ _ r hr
    rwa [List.enum_map_snd] at this
  · rw [RunDiscovery, hv] at hr
    simp [resultsOf] at hr

/-- C2: in every run outcome, no two results share a URL, and every
result scores at least the relevance floor of the configuration. -/
theorem run_results_unique_and_above_floor (cfg : EngineConfig)
    (adapters : List Adapter) (net : Network) (job : DiscoveryJob)
    (hden : 0 < cfg.minRelDen) :
    ((resultsOf (RunDiscovery cfg adapters net job)).map
        AnalyzedResult.url).Nodup
      ∧ ∀ r ∈ resultsOf (RunDiscovery cfg adapters net job),
          cfg.floorQ ≤ relevanceScore r := by
  constructor
  · rcases hv : validateJob job adapters with e | e
    · rw [resultsOf_run cfg adapters net job hv, finalizeTagged]
      have hnd : ((survivorsOf cfg adapters net job).enum.map
          (fun p => (Prod.snd p).url)).Nodup := by
        have : (survivorsOf cfg adapters net job).enum.map
            (fun p => (Prod.snd p).url) =
            (survivorsOf cfg adapters net job).map AnalyzedResult.url := by
          rw [show (fun p : Nat × AnalyzedResult => (Prod.snd p).url) =
              AnalyzedResult.url ∘ Prod.snd from rfl, ← List.map_map,
            List.enum_map_snd]
        rw [this]
        exact survivors_urls_nodup cfg adapters net job
      have hperm : ((sortBy resultOrder
          (survivorsOf cfg adapters net job).enum).map
            (fun p => (Prod.snd p).url)).Nodup :=
        ((sortBy_perm resultOrder _).map _).nodup_iff.mpr hnd
      rw [List.map_map]
      exact (((List.take_sublist _ _).map _).nodup hperm)
    · rw [RunDiscovery, hv]
      simp [resultsOf]
  · intro r hr
    have hs := mem_resultsOf_mem_survivors cfg adapters net job r hr
    exact (aboveFloor_iff cfg r hden).mp
      (survivors_aboveFloor cfg adapters net job r hs)

theorem run_results_unique_and_above_floor_witness :
    ((resultsOf (RunDiscovery cfg0 [adapterA] netA job0)).map
        AnalyzedResult.url).Nodup
      ∧ ∀ r ∈ resultsOf (RunDiscovery cfg0 [adapterA] netA job0),
          cfg0.floorQ ≤ relevanceScore r :=
  run_results_unique_and_above_floor cfg0 [adapterA] netA job0 (by decide)

/-! ## Claim C3: cap enforcement and ordering -/

theorem sortBy_resultOrder_sorted (l : List (Nat × AnalyzedResult)) :
    (sortBy resultOrder l).Pairwise (fun a b => resultOrder a b = true) :=
  sortBy_sorted resultOrder resultOrder_total resultOrder_trans l

theorem resultOrder_score_le (a b : Nat × AnalyzedResult)
    (h : resultOrder a b = true) :
    relevanceScore b.2 ≤ relevanceScore a.2 := by
  rcases (resultOrder_iff a b).mp h with h | ⟨h, _⟩
  · exact le_of_lt h
  · exact le_of_eq h.symm

/-- C3: when at least `resultCap` results survive the floor, the report
holds exactly `resultCap` results, ordered by score descending, and every
surviving result left out scores no more than every result kept. -/
theorem cap_enforcement (cfg : EngineConfig) (adapters : List Adapter)
    (net : Network) (job : DiscoveryJob)
    (hv : validateJob job adapters = none)
    (hcap : cfg.resultCap ≤ (survivorsOf cfg adapters net job).length) :
    (resultsOf (RunDiscovery cfg adapters net job)).length = cfg.resultCap
      ∧ (resultsOf (RunDiscovery cfg adapters net job)).Pairwise
          (fun a b => relevanceScore b ≤ relevanceScore a)
      ∧ ∀ r ∈ survivorsOf cfg adapters net job,
          r ∉ resultsOf (RunDiscovery cfg adapters net job) →
          ∀ r' ∈ resultsOf (RunDiscovery cfg adapters net job),
            relevanceScore r ≤ relevanceScore r' := by
  rw [resultsOf_run cfg adapters net job hv, finalizeTagged]
  have hlen : (sortBy resultOrder
      (survivorsOf cfg adapters net job).enum).length =
      (survivorsOf cfg adapters net job).length := by
    rw [(sortBy_perm resultOrder _).length_eq, List.enum_length]
  refine ⟨?_, ?_, ?_⟩
  · rw [List.length_map, List.length_take, hlen]
    exact Nat.min_eq_left hcap
  · have hsorted := sortBy_resultOrder_sorted
      (survivorsOf cfg adapters net job).enum
    have htake := hsorted.sublist (List.take_sublist cfg.resultCap _)
    exact List.pairwise_map.mpr
      (htake.imp fun {a b} h => resultOrder_score_le a b h)
  · intro r hr hnr r' hr'
    have hrt : r ∈ (survivorsOf cfg adapters net job).enum.map Prod.snd := by
      rwa [List.enum_map_snd]
    rcases List.mem_map.mp hrt with ⟨p, hp, hpr⟩
    have hps : p ∈ sortBy resultOrder (survivorsOf cfg adapters net job).enum :=
      (sortBy_perm resultOrder _).symm.mem_iff.mp hp
    set s := sortBy resultOrder (survivorsOf cfg adapters net job).enum with hs
    have hsplit : s = s.take cfg.resultCap ++ s.drop cfg.resultCap :=
      (List.take_append_drop cfg.resultCap s).symm
    have hpd : p ∈ s.drop cfg.resultCap := by
      rcases List.mem_append.mp (hsplit ▸ hps) with h | h
      · exact absurd (hpr ▸ List.mem_map_of_mem Prod.snd h) hnr
      · exact h
    rcases List.mem_map.mp hr' with ⟨q, hq, hqr⟩
    have hsorted := sortBy_resultOrder_sorted
      (survivorsOf cfg adapters net job).enum
    rw [← hs, hsplit] at hsorted
    have hqp := (List.pairwise_append.mp hsorted).2.2 q hq p hpd
    have := resultOrder_score_le q p hqp
    rw [hpr, hqr] at this
    exact this

/-- A configuration with result cap 1 for the cap-enforcement witness. -/
def cfgB : EngineConfig :=
  { targetDomain := "ui.ac.id", minRelNum := 3, minRelDen := 10,
    resultCap := 1, maxRetries := 3 }

/-- An adapter discovering two candidate URLs for the target keyword. -/
def adapterB : Adapter :=
  { id := "pastebin", kind := .clearnet,
    primaryDiscover := fun kw =>
      if kw = "ui.ac.id" then
        some ["https://pastebin.com/raw/aaa", "https://pastebin.com/raw/bbb"]
      else some [],
    fallbackDiscover := fun _ => [],
    discoverByAuthor := fun _ => [] }

/-- A network on which both discovered documents score above the floor. -/
def netB : Network := fun u _ =>
  if u = "https://pastebin.com/raw/aaa" then
    .success "leak ui.ac.id a@ui.ac.id b@ui.ac.id c@ui.ac.id Password: x"
      "unknown" 200
  else if u = "https://pastebin.com/raw/bbb" then
    .success "dump ui.ac.id only the domain here" "unknown" 200
  else .http 404

theorem cap_enforcement_witness :
    (resultsOf (RunDiscovery cfgB [adapterB] netB job0)).length =
      cfgB.resultCap :=
  (cap_enforcement cfgB [adapterB] netB job0 (by decide) (by decide)).1

/-! ## Claim C4: archive fallback exactly once per keyword -/

/-- Whether a trace event is a fallback invocation of the given adapter for
the given keyword. -/
def fallbackEventP (aid kw : String) (e : DiscoEvent) : Bool :=
  e.adapterID = aid && e.kw = kw && e.usedFallback

/-- How many times the run invoked the archive fallback of adapter `aid`
for keyword `kw`. -/
def fallbackCount (adapters : List Adapter) (job : DiscoveryJob)
    (aid kw : String) : Nat :=
  (discoveryEvents adapters job).countP (fallbackEventP aid kw)

theorem eventsInner_count_ne (ads : List Adapter) (a : Adapter)
    (kw kw' : String) (hne : kw' ≠ kw) :
    (ads.map fun a' =>
        (⟨a'.id, kw', (discoverKeyword a' kw').2⟩ : DiscoEvent)).countP
      (fallbackEventP a.id kw) = 0 := by
  rw [List.countP_eq_zero]
  intro e he
  rcases List.mem_map.mp he with ⟨a', _, rfl⟩
  simp [fallbackEventP, hne]

theorem eventsInner_count_eq (ads : List Adapter) (a : Adapter) (kw : String)
    (hid : (ads.map Adapter.id).Nodup) (ha : a ∈ ads) :
    (ads.map fun a' =>
        (⟨a'.id, kw, (discoverKeyword a' kw).2⟩ : DiscoEvent)).countP
      (fallbackEventP a.id kw) =
      if (discoverKeyword a kw).2 then 1 else 0 := by
  induction ads with
  | nil => cases ha
  | cons b t ih =>
    rw [List.map_cons, List.nodup_cons] at hid
    rw [List.map_cons, List.countP_cons]
    rcases List.mem_cons.mp ha with rfl | hat
    · have htail : (t.map fun a' =>
          (⟨a'.id, kw, (discoverKeyword a' kw).2⟩ : DiscoEvent)).countP
          (fallbackEventP a.id kw) = 0 := by
        rw [List.countP_eq_zero]
        intro e he
        rcases List.mem_map.mp he with ⟨a', ha', rfl⟩
        have : a'.id ≠ a.id := by
          intro h
          exact hid.1 (h ▸ List.mem_map_of_mem Adapter.id ha')
        simp [fallbackEventP, this]
      rw [htail]
      simp [fallbackEventP]
    · have hbne : b.id ≠ a.id := by
        intro h
        exact hid.1 (h ▸ List.mem_map_of_mem Adapter.id hat)
      have : fallbackEventP a.id kw ⟨b.id, kw, (discoverKeyword b kw).2⟩ =
          false := by
        simp [fallbackEventP, hbne]
      rw [this, ih hid.2 hat]
      simp

theorem eventsFor_count_not_mem (ads : List Adapter) (a : Adapter)
    (kws : List String) (kw : String) (h : kw ∉ kws) :
    (eventsFor ads kws).countP (fallbackEventP a.id kw) = 0 := by
  rw [List.countP_eq_zero]
  intro e he
  rcases List.mem_flatMap.mp he with ⟨kw', hkw', hin⟩
  rcases List.mem_map.mp hin with ⟨a', _, rfl⟩
  have : kw' ≠ kw := fun hne => h (hne ▸ hkw')
  simp [fallbackEventP, this]

theorem eventsFor_count (ads : List Adapter) (a : Adapter)
    (kws : List String) (kw : String) (hknd : kws.Nodup) (hkw : kw ∈ kws)
    (hid : (ads.map Adapter.id).Nodup) (ha : a ∈ ads) :
    (eventsFor ads kws).countP (fallbackEventP a.id kw) =
      if (discoverKeyword a kw).2 then 1 else 0 := by
  induction kws with
  | nil => cases hkw
  | cons k t ih =>
    rw [List.nodup_cons] at hknd
    rw [eventsFor, List.flatMap_cons, List.countP_append]
    rcases List.mem_cons.mp hkw with rfl | hkt
    · rw [eventsInner_count_eq ads a kw hid ha,
        show (t.flatMap fun kw' => ads.map fun a' =>
            (⟨a'.id, kw', (discoverKeyword a' kw').2⟩ : DiscoEvent)) =
          eventsFor ads t from rfl,
        eventsFor_count_not_mem ads a t kw hknd.1]
      simp
    · have hkne : k ≠ kw := fun h => hknd.1 (h ▸ hkt)
      rw [eventsInner_count_ne ads a kw k hkne,
        show (t.flatMap fun kw' => ads.map fun a' =>
            (⟨a'.id, kw', (discoverKeyword a' kw').2⟩ : DiscoEvent)) =
          eventsFor ads t from rfl,
        ih hknd.2 hkt]
      simp

/-- C4: for every keyword of a run with distinct keywords and distinct
enabled-adapter ids, an enabled adapter whose primary search fails or
returns nothing has its archive fallback invoked exactly once for that
keyword, and an adapter whose primary search returns candidates has it
invoked zero times. -/
theorem fallback_exactly_once (adapters : List Adapter) (job : DiscoveryJob)
    (a : Adapter) (kw : String)
    (ha : a ∈ enabledAdapters adapters job)
    (hid : ((enabledAdapters adapters job).map Adapter.id).Nodup)
    (hkw : kw ∈ job.keywords) (hknd : job.keywords.Nodup) :
    ((a.primaryDiscover kw = some [] ∨ a.primaryDiscover kw = none) →
        fallbackCount adapters job a.id kw = 1)
      ∧ (∀ u us, a.primaryDiscover kw = some (u :: us) →
          fallbackCount adapters job a.id kw = 0) := by
  have hcount := eventsFor_count (enabledAdapters adapters job) a
    job.keywords kw hknd hkw hid ha
  constructor
  · intro hp
    have hfb : (discoverKeyword a kw).2 = true := by
      rcases hp with hp | hp <;> rw [discoverKeyword, hp]
    rw [fallbackCount, discoveryEvents, hcount, hfb]
    rfl
  · intro u us hp
    have hfb : (discoverKeyword a kw).2 = false := by
      rw [discoverKeyword, hp]
    rw [fallbackCount, discoveryEvents, hcount, hfb]
    rfl

/-- An adapter whose primary search always returns empty. -/
def adapterD : Adapter :=
  { id := "archive-only", kind := .clearnet,
    primaryDiscover := fun _ => some [],
    fallbackDiscover := fun _ => ["https://pastebin.com/raw/fb"],
    discoverByAuthor := fun _ => [] }

theorem fallback_exactly_once_witness :
    fallbackCount [adapterD] job0 adapterD.id "ui.ac.id" = 1 :=
  (fallback_exactly_once [adapterD] job0 adapterD "ui.ac.id"
    (List.mem_cons_self _ _) (by decide) (by decide) (by decide)).1
    (Or.inl rfl)

/-! ## Claim C6: error propagation policy -/

theorem runErrorsOf_run (cfg : EngineConfig) (adapters : List Adapter)
    (net : Network) (job : DiscoveryJob)
    (hv : validateJob job adapters = none) :
    runErrorsOf (RunDiscovery cfg adapters net job) =
      (round1 cfg adapters net job).2.2 ++ (round2 cfg adapters net job).2.2 := by
  rw [RunDiscovery, hv]
  rfl

theorem expCandidates_urls_nodup (cfg : EngineConfig)
    (adapters : List Adapter) (net : Network) (job : DiscoveryJob) :
    ((expCandidates cfg adapters net job).map Candidate.url).Nodup := by
  rw [expCandidates]
  split
  · exact dedupByURL_nodup _
  · simp

/-- C6: a job-level validation error fails the run immediately with that
JobError, independently of the network (no network activity); a run on a
valid job always completes, and every per-URL fetch failure encountered
during the run is recorded in the errors of the report rather than
aborting the run: this covers the de-duplicated discovery candidates of
the first fetch round and the author-expansion candidates of the second
round (those whose URL the first round has not already processed, since
the frontier never fetches a URL twice). -/
theorem error_propagation (cfg : EngineConfig) (adapters : List Adapter)
    (net : Network) (job : DiscoveryJob) :
    (∀ e, validateJob job adapters = some e →
        RunDiscovery cfg adapters net job = .error e
          ∧ ∀ net' : Network,
              RunDiscovery cfg adapters net' job =
                RunDiscovery cfg adapters net job)
      ∧ (validateJob job adapters = none →
          (∃ rep, RunDiscovery cfg adapters net job = .ok rep)
            ∧ (∀ c ∈ dedupByURL (discoveryCandidates adapters job),
                ∀ k, (fetchURL cfg net c.url).1 = .error k →
                  (⟨k, c.url, c.adapterID⟩ : AdapterError) ∈
                    runErrorsOf (RunDiscovery cfg adapters net job))
            ∧ (∀ c ∈ expCandidates cfg adapters net job,
                c.url ∉ (round1 cfg adapters net job).1 →
                ∀ k, (fetchURL cfg net c.url).1 = .error k →
                  (⟨k, c.url, c.adapterID⟩ : AdapterError) ∈
                    runErrorsOf (RunDiscovery cfg adapters net job))) := by
  constructor
  · intro e hv
    constructor
    · rw [RunDiscovery, hv]
    · intro net'
      rw [RunDiscovery, hv, RunDiscovery, hv]
  · intro hv
    refine ⟨⟨_, by rw [RunDiscovery, hv]⟩, ?_, ?_⟩
    · intro c hc k hk
      rw [runErrorsOf_run cfg adapters net job hv]
      refine List.mem_append_left _ ?_
      exact fetchPhase_errors_recorded cfg net
        (dedupByURL (discoveryCandidates adapters job)) []
        (dedupByURL_nodup _) c hc (by simp) k hk
    · intro c hc hseen k hk
      rw [runErrorsOf_run cfg adapters net job hv]
      refine List.mem_append_right _ ?_
      exact fetchPhase_errors_recorded cfg net
        (expCandidates cfg adapters net job)
        (round1 cfg adapters net job).1
        (expCandidates_urls_nodup cfg adapters net job) c hc hseen k hk

/-- A job with zero keywords and zero seed URLs. -/
def jobBad : DiscoveryJob :=
  { keywords := [], seedURLs := [], enableClearnet := true,
    enableDarknet := false, crawlAuthors := false }

/-- An adapter discovering one good and one missing document. -/
def adapterE : Adapter :=
  { id := "pastebin", kind := .clearnet,
    primaryDiscover := fun kw =>
      if kw = "ui.ac.id" then
        some ["https://pastebin.com/raw/aaa", "https://pastebin.com/raw/dead"]
      else some [],
    fallbackDiscover := fun _ => [],
    discoverByAuthor := fun _ => [] }

/-- A network on which the second discovered document returns 404. -/
def netE : Network := fun u _ =>
  if u = "https://pastebin.com/raw/aaa" then
    .success "leak ui.ac.id a@ui.ac.id b@ui.ac.id c@ui.ac.id Password: x"
      "unknown" 200
  else .http 404

/-- A job with author crawling enabled, for the expansion-round error
fixture. -/
def jobG : DiscoveryJob :=
  { keywords := ["ui.ac.id"], seedURLs := [], enableClearnet := true,
    enableDarknet := false, crawlAuthors := true }

/-- An adapter whose author discovery yields one expansion URL for alice. -/
def adapterG : Adapter :=
  { id := "pastebin", kind := .clearnet,
    primaryDiscover := fun kw =>
      if kw = "ui.ac.id" then some ["https://pastebin.com/raw/p1"]
      else some [],
    fallbackDiscover := fun _ => [],
    discoverByAuthor := fun author =>
      if author = "alice" then ["https://pastebin.com/raw/e404"] else [] }

/-- A network where the discovery document succeeds but the expansion
fetch of the second round returns 404. -/
def netG : Network := fun u _ =>
  if u = "https://pastebin.com/raw/p1" then
    .success "leak ui.ac.id a@ui.ac.id b@ui.ac.id c@ui.ac.id Password: x"
      "alice" 200
  else .http 404

theorem error_propagation_witness :
    RunDiscovery cfg0 [adapterA] netA jobBad = .error .InvalidJobInput
      ∧ (⟨.HTTPError 404, "https://pastebin.com/raw/dead", "pastebin"⟩ :
          AdapterError) ∈
          runErrorsOf (RunDiscovery cfg0 [adapterE] netE job0)
      ∧ (⟨.HTTPError 404, "https://pastebin.com/raw/e404", "pastebin"⟩ :
          AdapterError) ∈
          runErrorsOf (RunDiscovery cfg0 [adapterG] netG jobG) :=
  ⟨((error_propagation cfg0 [adapterA] netA jobBad).1 .InvalidJobInput
      (by decide)).1,
   ((error_propagation cfg0 [adapterE] netE job0).2 (by decide)).2.1
     ⟨"https://pastebin.com/raw/dead", "pastebin", .keywordSearch⟩ (by decide)
     (.HTTPError 404) (by rfl),
   ((error_propagation cfg0 [adapterG] netG jobG).2 (by decide)).2.2
     ⟨"https://pastebin.com/raw/e404", "pastebin", .authorExpansion⟩
     (by decide) (by decide) (.HTTPError 404) (by rfl)⟩

/-! ## Claim C7: deterministic ordering under any completion order -/

theorem nodup_fst_inj (l : List (Nat × AnalyzedResult))
    (h : (l.map Prod.fst).Nodup) :
    ∀ a ∈ l, ∀ b ∈ l, a.1 = b.1 → a = b := by
  induction l with
  | nil => simp
  | cons x t ih =>
    rw [List.map_cons, List.nodup_cons] at h
    intro a ha b hb hab
    rcases List.mem_cons.mp ha with rfl | hat
    · rcases List.mem_cons.mp hb with rfl | hbt
      · rfl
      · exact absurd (hab ▸ List.mem_map_of_mem Prod.fst hbt) h.1
    · rcases List.mem_cons.mp hb with rfl | hbt
      · exact absurd (hab ▸ List.mem_map_of_mem Prod.fst hat) h.1
      · exact ih h.2 a hat b hbt hab

/-- C7: the final results are a function of the set of position-tagged
survivors only: any fetch-completion order (any permutation of the tagged
survivors) finalizes to exactly the results of the run.  Together with the
engine being a pure function of its inputs, running the same job twice on
the same fixture yields identical reports. -/
theorem deterministic_ordering (cfg : EngineConfig) (adapters : List Adapter)
    (net : Network) (job : DiscoveryJob)
    (hv : validateJob job adapters = none)
    (l' : List (Nat × AnalyzedResult))
    (hp : l'.Perm (survivorsOf cfg adapters net job).enum) :
    finalizeTagged cfg.resultCap l' =
      resultsOf (RunDiscovery cfg adapters net job) := by
  rw [resultsOf_run cfg adapters net job hv]
  have hfst : (l'.map Prod.fst).Nodup := by
    have : ((survivorsOf cfg adapters net job).enum.map Prod.fst).Nodup := by
      rw [List.enum_map_fst]
      exact List.nodup_range _
    exact ((hp.map Prod.fst).nodup_iff).mpr this
  have hsort : sortBy resultOrder l' =
      sortBy resultOrder (survivorsOf cfg adapters net job).enum := by
    refine sorted_perm_eq resultOrder _ _ ?_ ?_ ?_ ?_
    · intro a ha b hb hab hba
      have ha' : a ∈ l' := (sortBy_perm resultOrder l').mem_iff.mp ha
      have hb' : b ∈ l' := (sortBy_perm resultOrder l').mem_iff.mp hb
      exact nodup_fst_inj l' hfst a ha' b hb'
        (resultOrder_antisymm_fields a b hab hba).2
    · exact ((sortBy_perm resultOrder l').trans hp).trans
        (sortBy_perm resultOrder _).symm
    · exact sortBy_resultOrder_sorted l'
    · exact sortBy_resultOrder_sorted _
  rw [finalizeTagged, finalizeTagged, hsort]

theorem deterministic_ordering_witness :
    finalizeTagged cfgB.resultCap
        ((survivorsOf cfgB [adapterB] netB job0).enum.reverse) =
      resultsOf (RunDiscovery cfgB [adapterB] netB job0) :=
  deterministic_ordering cfgB [adapterB] netB job0 (by decide) _
    (List.reverse_perm _)

/-! ## Claim C8: author expansion applied exactly at depth 1 -/

/-- C8: with crawlAuthors enabled, every URL the run fetches is either a
discovery-phase candidate or an author-expansion candidate derived from the
survivors of the first round; the expansion candidates of the run are
exactly those derived from the first-round survivors (whose analysis sees
only first-round documents), so the authors of expanded documents are never
themselves expanded and expansion stops after one round.  Expanded
documents are themselves fetched and analyzed: the survivors of the run are
the first-round survivors followed by the above-floor analyses of the
second-round fetches. -/
theorem author_expansion_depth_one (cfg : EngineConfig)
    (adapters : List Adapter) (net : Network) (job : DiscoveryJob)
    (hc : job.crawlAuthors = true) :
    (∀ u ∈ fetchedUrlsOf cfg adapters net job,
        u ∈ (dedupByURL (discoveryCandidates adapters job)).map Candidate.url
          ∨ u ∈ (dedupByURL (expansionCandidates adapters
              (round1Survivors cfg adapters net job))).map Candidate.url)
      ∧ expCandidates cfg adapters net job =
          dedupByURL (expansionCandidates adapters
            (round1Survivors cfg adapters net job))
      ∧ survivorsOf cfg adapters net job =
          round1Survivors cfg adapters net job ++
            (analyzeDocs cfg job (round2 cfg adapters net job).2.1).filter
              (aboveFloor cfg) := by
  have hexp : expCandidates cfg adapters net job =
      dedupByURL (expansionCandidates adapters
        (round1Survivors cfg adapters net job)) := by
    rw [expCandidates, if_pos hc]
  refine ⟨?_, hexp, rfl⟩
  intro u hu
  rcases List.mem_map.mp hu with ⟨p, hp, hpu⟩
  rcases List.mem_append.mp hp with h | h
  · obtain ⟨_, _, _, h4⟩ :=
      fetchPhase_docs_urls cfg net
        (dedupByURL (discoveryCandidates adapters job)) []
    exact Or.inl (hpu ▸ h4 p h)
  · obtain ⟨_, _, _, h4⟩ :=
      fetchPhase_docs_urls cfg net (expCandidates cfg adapters net job)
        (round1 cfg adapters net job).1
    exact Or.inr (hpu ▸ hexp ▸ h4 p h)

/-- A job with author crawling enabled. -/
def jobC : DiscoveryJob :=
  { keywords := ["ui.ac.id"], seedURLs := [], enableClearnet := true,
    enableDarknet := false, crawlAuthors := true }

/-- An adapter whose author discovery chains alice to bob. -/
def adapterF : Adapter :=
  { id := "pastebin", kind := .clearnet,
    primaryDiscover := fun kw =>
      if kw = "ui.ac.id" then some ["https://pastebin.com/raw/p1"]
      else some [],
    fallbackDiscover := fun _ => [],
    discoverByAuthor := fun author =>
      if author = "alice" then ["https://pastebin.com/raw/p2"]
      else if author = "bob" then ["https://pastebin.com/raw/p3"]
      else [] }

/-- A network where the seed document by alice leads to a document by bob,
which leads to a third document; the third must never be fetched. -/
def netF : Network := fun u _ =>
  if u = "https://pastebin.com/raw/p1" then
    .success "students ui.ac.id list a@ui.ac.id b@ui.ac.id c@ui.ac.id"
      "alice" 200
  else if u = "https://pastebin.com/raw/p2" then
    .success "more ui.ac.id data d@ui.ac.id e@ui.ac.id f@ui.ac.id" "bob" 200
  else if u = "https://pastebin.com/raw/p3" then
    .success "even more ui.ac.id data" "carol" 200
  else .http 404

theorem author_expansion_depth_one_witness :
    (∀ u ∈ fetchedUrlsOf cfg0 [adapterF] netF jobC,
        u ∈ (dedupByURL (discoveryCandidates [adapterF] jobC)).map
            Candidate.url
          ∨ u ∈ (dedupByURL (expansionCandidates [adapterF]
              (round1Survivors cfg0 [adapterF] netF jobC))).map
                Candidate.url)
      ∧ "https://pastebin.com/raw/p2" ∈ fetchedUrlsOf cfg0 [adapterF] netF jobC
      ∧ "https://pastebin.com/raw/p3" ∉
          fetchedUrlsOf cfg0 [adapterF] netF jobC :=
  ⟨(author_expansion_depth_one cfg0 [adapterF] netF jobC rfl).1,
    by decide, by decide⟩

/-! ## Claim C9: job input bounds

The spec states 1 to 10 keywords; the repository documents the deployed
request limits as at most 5 keywords per request
(AUTO_DISCOVERY_GUIDE.md line 172), so a job with 6 keywords is rejected
although it lies within the bounds of the claim. -/

/-- A job with six well-formed keywords, inside the bounds the claim
states. -/
def jobSixKw : DiscoveryJob :=
  { keywords := ["keyword1", "keyword2", "keyword3", "keyword4",
      "keyword5", "keyword6"],
    seedURLs := [], enableClearnet := true, enableDarknet := false,
    crawlAuthors := false }

/-- C9 (counterexample): a job with six keywords, inside the stated bounds
of 1 to 10, is rejected as InvalidJobInput. -/
theorem job_bounds_counterexample :
    validateJob jobSixKw [adapterA] = some .InvalidJobInput := by decide

/-- C9 (amended): a job with 1 to 5 keywords, each 3 to 100 characters,
and at most 20 seed URLs is never rejected as InvalidJobInput. -/
theorem job_bounds_amended (job : DiscoveryJob) (adapters : List Adapter)
    (h1 : 1 ≤ job.keywords.length) (h2 : job.keywords.length ≤ 5)
    (h3 : ∀ k ∈ job.keywords, 3 ≤ k.length ∧ k.length ≤ 100)
    (h4 : job.seedURLs.length ≤ 20) :
    validateJob job adapters ≠ some .InvalidJobInput := by
  rw [validateJob]
  split
  · simp
  · split
    · rename_i hemp
      rw [Bool.and_eq_true] at hemp
      have : job.keywords.length = 0 := by
        rw [← List.isEmpty_iff_length_eq_zero]
        exact hemp.1
      omega
    · split
      · rename_i hlen
        rw [decide_eq_true_iff] at hlen
        omega
      · split
        · rename_i hall
          rw [Bool.not_eq_true', ← Bool.not_eq_true, List.all_eq_true] at hall
          refine absurd ?_ hall
          intro k hk
          rw [Bool.and_eq_true, decide_eq_true_iff, decide_eq_true_iff]
          exact h3 k hk
        · split
          · rename_i hseed
            rw [decide_eq_true_iff] at hseed
            omega
          · simp

theorem job_bounds_amended_witness :
    validateJob job0 [adapterA] ≠ some .InvalidJobInput :=
  job_bounds_amended job0 [adapterA] (by decide) (by decide) (by decide)
    (by decide)

/-! ## Claim C10: the frontend scan form (ScanModal.jsx, handleSubmit) -/

/-- The request body `api.createScan` sends (ScanModal.jsx lines 70-74). -/
structure ScanRequest where
  urls : List String
  enable_clearnet : Bool
  enable_darknet : Bool
  crawl_authors : Bool
deriving DecidableEq, Repr

/-- The submit handler of the scan form (ScanModal.jsx lines 54-95): keeps
the URLs that are non-blank after trimming; when none remain it shows the
error and sends nothing, otherwise it sends the request with
enable_clearnet always true and the two checkbox values. -/
def scanModalSubmit (urls : List String) (crawlAuthors enableDarknet : Bool) :
    Except String ScanRequest :=
  let valid := urls.filter fun u => !(isBlank u)
  if valid.isEmpty then .error "Please enter at least one paste URL"
  else
    .ok { urls := valid, enable_clearnet := true,
          enable_darknet := enableDarknet, crawl_authors := crawlAuthors }

/-- C10: on submit, either some entered URL is non-blank, in which case the
request sent holds exactly the non-blank URLs and enable_clearnet is true,
or every entered URL is blank and no request is sent, only the error
message. -/
theorem scan_modal_submit_spec (urls : List String)
    (crawlAuthors enableDarknet : Bool) :
    ((∃ u ∈ urls, isBlank u = false) →
        scanModalSubmit urls crawlAuthors enableDarknet =
          .ok ⟨urls.filter (fun u => !(isBlank u)), true, enableDarknet,
            crawlAuthors⟩)
      ∧ ((∀ u ∈ urls, isBlank u = true) →
          scanModalSubmit urls crawlAuthors enableDarknet =
            .error "Please enter at least one paste URL") := by
  constructor
  · rintro ⟨u, hu, hb⟩
    have hne : (urls.filter fun u => !(isBlank u)).isEmpty = false := by
      rw [List.isEmpty_eq_false_iff_exists_mem]
      exact ⟨u, List.mem_filter.mpr ⟨hu, by rw [hb]; rfl⟩⟩
    rw [scanModalSubmit]
    simp only [hne]
    rfl
  · intro hall
    have hnil : (urls.filter fun u => !(isBlank u)) = [] := by
      rw [List.filter_eq_nil_iff]
      intro u hu
      rw [hall u hu]
      simp
    rw [scanModalSubmit]
    simp only [hnil]
    rfl

theorem scan_modal_submit_spec_witness :
    scanModalSubmit ["https://pastebin.com/raw/x", " "] true false =
      .ok ⟨["https://pastebin.com/raw/x", " "].filter
          (fun u => !(isBlank u)), true, false, true⟩ :=
  (scan_modal_submit_spec ["https://pastebin.com/raw/x", " "] true false).1
    ⟨"https://pastebin.com/raw/x", by decide, by decide⟩

end Nexzy
